import Mathlib

/-!
Verification of the policy-hub delivery reconciliation engine.

The definitions below are a shallow embedding of
.github/actions/policy-operations/index.js (class PolicyOperations):
file paths and registry responses become explicit data, the delivered.json
state file becomes an association list, the asynchronous git/HTTP calls
become explicit inputs.  The GitHub-Actions workflow that orchestrates the
individual operations (batch-release.yml) is not part of the sources; the
reconciler at the end of this file is modelled from the specification and
is marked as such.
-/

deriving instance DecidableEq for Except

namespace PolicyHub

/-- A DeliveryRecord as written into delivered.json by updatePolicyRecord and
updateStateForExistingPolicy: a timestamp (new Date().toISOString(), modelled
as a Nat), the release tag, and an optional note.  -/
structure DeliveryRecord where
  deliveredAt : Nat
  release : String
  note : Option String
deriving DecidableEq, Repr

/-- The delivered.json state file: a JSON object keyed by policy path,
modelled as an ordered association list (JS objects preserve key insertion
order).  -/
def Ledger : Type := List (String × DeliveryRecord)

instance : DecidableEq Ledger := by
  unfold Ledger
  infer_instance

instance : Repr Ledger := by
  unfold Ledger
  infer_instance

/-- Property lookup on the state object: deliveryState[policyPath].  -/
def lookupRec : Ledger → String → Option DeliveryRecord
  | [], _ => none
  | (k, v) :: rest, key => if k = key then some v else lookupRec rest key

/-- Property assignment on the state object: state[policyPath] = record.
Assignment to an existing key replaces its value in place; a new key is
appended at the end.  -/
def setRec : Ledger → String → DeliveryRecord → Ledger
  | [], key, v => [(key, v)]
  | (k, w) :: rest, key, v =>
      if k = key then (key, v) :: rest else (k, w) :: setRec rest key v

theorem lookupRec_setRec_self (state : Ledger) (key : String) (v : DeliveryRecord) :
    lookupRec (setRec state key v) key = some v := by
  induction state with
  | nil => simp [setRec, lookupRec]
  | cons kv rest ih =>
      obtain ⟨k, w⟩ := kv
      by_cases hk : k = key
      · simp [setRec, hk, lookupRec]
      · simp [setRec, hk, lookupRec, ih]

theorem lookupRec_setRec_ne (state : Ledger) (key q : String) (v : DeliveryRecord)
    (hne : key ≠ q) : lookupRec (setRec state key v) q = lookupRec state q := by
  induction state with
  | nil => simp [setRec, lookupRec, hne]
  | cons kv rest ih =>
      obtain ⟨k, w⟩ := kv
      by_cases hk : k = key
      · subst hk
        simp [setRec, lookupRec, hne]
      · simp [setRec, hk, lookupRec, ih]

/-- String.split, restricted to a single-character separator, acting on the
character list of the string (filePath.split('/') in the code).  -/
def splitOnChar (sep : Char) : List Char → List (List Char)
  | [] => [[]]
  | c :: cs =>
      let rest := splitOnChar sep cs
      if c = sep then [] :: rest
      else
        match rest with
        | r :: rs => (c :: r) :: rs
        | [] => [[c]]

/-- The version pattern of isValidPolicyPath: parts[2].match(/^v\d+\.\d+\.\d+$/).
A string matches exactly when it is a v followed by three nonempty
digit groups separated by dots.  -/
def isSemverV (s : List Char) : Bool :=
  match s with
  | 'v' :: rest =>
      match splitOnChar '.' rest with
      | [a, b, c] =>
          !a.isEmpty && !b.isEmpty && !c.isEmpty && (a ++ b ++ c).all Char.isDigit
      | _ => false
  | _ => false

/-- isValidPolicyPath(filePath): parts = filePath.split('/');
parts.length >= 3 and parts[0] === 'policies' and parts[2] matches the
version pattern.  -/
def isValidPolicyPath (filePath : String) : Bool :=
  match splitOnChar '/' filePath.data with
  | p0 :: _ :: p2 :: _ => p0 = "policies".data && isSemverV p2
  | _ => false

/-- The policy objects built by detectChangedPolicies: path is the
three-segment folder from extractPolicyFolder, name and version the second
and third segment.  -/
structure Policy where
  path : String
  name : String
  version : String
deriving DecidableEq, Repr

/-- Fused extractPolicyFolder plus the later folder.split('/') projection of
detectChangedPolicies: a changed file passing isValidPolicyPath yields the
policy whose folder is its first three path segments.  Folding the two steps
into one avoids re-splitting the joined folder string; it is faithful because
segments produced by split('/') contain no slash.  -/
def extractPolicy (filePath : String) : Option Policy :=
  match splitOnChar '/' filePath.data with
  | p0 :: p1 :: p2 :: _ =>
      if p0 = "policies".data ∧ isSemverV p2 then
        some { path := String.mk (p0 ++ '/' :: p1 ++ '/' :: p2)
               name := String.mk p1
               version := String.mk p2 }
      else none
  | _ => none

theorem extractPolicy_isSome_iff (filePath : String) :
    (extractPolicy filePath).isSome = isValidPolicyPath filePath := by
  unfold extractPolicy isValidPolicyPath
  rcases splitOnChar '/' filePath.data with _ | ⟨p0, _ | ⟨p1, _ | ⟨p2, rest⟩⟩⟩
  · simp
  · simp
  · simp
  · simp
    split <;> simp_all

/-- The shape every policy produced by extractPolicy has: the folder path is
the collection root followed by name and version.  Within one detection
result this makes the (name, version) sort key injective.  -/
def CanonicalPolicy (p : Policy) : Prop :=
  p.path = String.mk ("policies".data ++ '/' :: p.name.data ++ '/' :: p.version.data)

theorem extractPolicy_canonical {filePath : String} {p : Policy}
    (h : extractPolicy filePath = some p) : CanonicalPolicy p := by
  unfold extractPolicy at h
  split at h
  · split at h
    · rename_i hcond
      cases h
      simp [CanonicalPolicy, hcond.1]
    · exact absurd h (by simp)
  · exact absurd h (by simp)

/-- The comparator of detectChangedPolicies: sort by name, then by version
(a.name.localeCompare(b.name), falling back to version comparison), with
localeCompare modelled as lexicographic character order.  -/
def PolicyLE (a b : Policy) : Prop :=
  a.name.data < b.name.data ∨ (a.name.data = b.name.data ∧ a.version.data ≤ b.version.data)

instance : DecidableRel PolicyLE := fun a b => by
  unfold PolicyLE
  infer_instance

instance : IsTotal Policy PolicyLE where
  total a b := by
    rcases lt_trichotomy a.name.data b.name.data with h | h | h
    · exact Or.inl (Or.inl h)
    · rcases le_total a.version.data b.version.data with hv | hv
      · exact Or.inl (Or.inr ⟨h, hv⟩)
      · exact Or.inr (Or.inr ⟨h.symm, hv⟩)
    · exact Or.inr (Or.inl h)

instance : IsTrans Policy PolicyLE where
  trans a b c hab hbc := by
    rcases hab with h1 | ⟨h1, v1⟩
    · rcases hbc with h2 | ⟨h2, v2⟩
      · exact Or.inl (lt_trans h1 h2)
      · exact Or.inl (h2 ▸ h1)
    · rcases hbc with h2 | ⟨h2, v2⟩
      · exact Or.inl (h1 ▸ h2)
      · exact Or.inr ⟨h1.trans h2, le_trans v1 v2⟩

theorem policyLE_antisymm_of_canonical {a b : Policy}
    (ha : CanonicalPolicy a) (hb : CanonicalPolicy b)
    (hab : PolicyLE a b) (hba : PolicyLE b a) : a = b := by
  have hname : a.name.data = b.name.data := by
    rcases hab with h1 | ⟨h1, _⟩
    · rcases hba with h2 | ⟨h2, _⟩
      · exact absurd (lt_trans h1 h2) (lt_irrefl _)
      · exact h2.symm
    · exact h1
  have hver : a.version.data = b.version.data := by
    rcases hab with h1 | ⟨_, v1⟩
    · exact absurd h1 (by simp [hname])
    · rcases hba with h2 | ⟨_, v2⟩
      · exact absurd h2 (by simp [hname])
      · exact le_antisymm v1 v2
  have hn : a.name = b.name := String.ext hname
  have hv : a.version = b.version := String.ext hver
  have hp : a.path = b.path := by
    rw [ha, hb, hname, hver]
  cases a; cases b
  simp_all

/-- newPolicies.sort(comparator), modelled as insertion sort.  Array.sort
produces some permutation ordered by the comparator; since detection results
have pairwise-distinct (name, version) keys, the ordered permutation is
unique, so insertion sort is an exact model (see
sorted_perm_eq_of_canonical).  -/
def sortPolicies (l : List Policy) : List Policy := List.insertionSort PolicyLE l

theorem sorted_perm_eq_of_canonical :
    ∀ (l₁ l₂ : List Policy), (∀ p ∈ l₁, CanonicalPolicy p) → l₁.Perm l₂ →
      List.Sorted PolicyLE l₁ → List.Sorted PolicyLE l₂ → l₁ = l₂
  | [], l₂, _, hperm, _, _ => (List.Perm.nil_eq hperm).symm ▸ rfl
  | a :: l₁, [], _, hperm, _, _ => absurd hperm (by simp)
  | a :: l₁, b :: l₂, hcan, hperm, hs₁, hs₂ => by
      have hab : a = b := by
        by_contra hne
        have hamem : a ∈ b :: l₂ := hperm.mem_iff.mp (List.mem_cons_self a l₁)
        have ha2 : a ∈ l₂ := by
          rcases List.mem_cons.mp hamem with h | h
          · exact absurd h hne
          · exact h
        have hbmem : b ∈ a :: l₁ := hperm.symm.mem_iff.mp (List.mem_cons_self b l₂)
        have hb1 : b ∈ l₁ := by
          rcases List.mem_cons.mp hbmem with h | h
          · exact absurd h.symm hne
          · exact h
        have h1 : PolicyLE a b := (List.sorted_cons.mp hs₁).1 b hb1
        have h2 : PolicyLE b a := (List.sorted_cons.mp hs₂).1 a ha2
        exact hne (policyLE_antisymm_of_canonical (hcan a (List.mem_cons_self a l₁))
          (hcan b (List.mem_cons.mpr (Or.inr hb1))) h1 h2)
      subst hab
      have hperm' : l₁.Perm l₂ := hperm.cons_inv
      have := sorted_perm_eq_of_canonical l₁ l₂
        (fun p hp => hcan p (List.mem_cons.mpr (Or.inr hp))) hperm'
        (List.sorted_cons.mp hs₁).2 (List.sorted_cons.mp hs₂).2
      rw [this]

/-- The source history as the detection operation sees it: the set of
resolvable commits (git cat-file -e) and the name-only diff between two
commits (git diff --name-only baseline..HEAD, one entry per line).  Commits
are modelled as naturals in topological order.  -/
structure SourceRepo where
  commits : List Nat
  diff : Nat → Nat → List String

/-- Lines 36 to 58 of detectChangedPolicies: split the diff output into
nonempty lines, keep paths passing isValidPolicyPath, collapse them into
the set of unique policy folders (a JS Set), and build one policy object
per folder.  List.dedup models the Set; the pre-sort order of
representatives does not affect the sorted result.  -/
def changedPolicyList (diffFiles : List String) : List Policy :=
  ((diffFiles.filter (fun f => !f.data.isEmpty)).filterMap extractPolicy).dedup

/-- detectChangedPolicies: fail when the baseline commit is unresolvable;
otherwise diff baseline..HEAD, extract the unique changed policy folders,
drop the ones that already have a record in delivered.json (already
delivered, immutable), and sort by name then version.  -/
def detectChangedPolicies (repo : SourceRepo) (baselineSha headSha : Nat)
    (ledger : Ledger) : Except String (List Policy) :=
  if baselineSha ∈ repo.commits then
    let changed := changedPolicyList (repo.diff baselineSha headSha)
    let newPolicies := changed.filter (fun p => (lookupRec ledger p.path).isNone)
    .ok (sortPolicies newPolicies)
  else
    .error "Baseline SHA does not exist in repository"

/-- The decision object returned by shouldDeliver.  -/
structure DeliveryDecision where
  shouldDeliver : Bool
  reason : String
  lastDeliveredAt : Option Nat
deriving DecidableEq, Repr

/-- shouldDeliver(policyPath, deliveryState): no record means never
delivered; an existing record means the version is immutable and is never
delivered again, regardless of content changes.  -/
def shouldDeliver (policyPath : String) (deliveryState : Ledger) : DeliveryDecision :=
  match lookupRec deliveryState policyPath with
  | none =>
      { shouldDeliver := true, reason := "never-delivered", lastDeliveredAt := none }
  | some record =>
      { shouldDeliver := false, reason := "version-immutable"
        lastDeliveredAt := some record.deliveredAt }

/-- updatePolicyRecord(state, policyPath, releaseTag): unconditionally
assigns a fresh record to state[policyPath].  The timestamp
new Date().toISOString() is the parameter now.  -/
def updatePolicyRecord (state : Ledger) (policyPath releaseTag : String) (now : Nat) :
    Ledger :=
  setRec state policyPath { deliveredAt := now, release := releaseTag, note := none }

/-- updateDeliveryState: reads the state file, writes the updated record
back to disk, and only then evaluates the return expression
{ updated: true, previousSha } in which previousSha is not defined anywhere
in the method, so a ReferenceError is raised after the write has been
persisted.  The first component is the state file content after the
operation, the second its outcome.  -/
def updateDeliveryState (state : Ledger) (policyPath releaseTag : String) (now : Nat) :
    Ledger × Except String Unit :=
  (updatePolicyRecord state policyPath releaseTag now,
   .error "ReferenceError: previousSha is not defined")

/-- updateStateForExistingPolicy: marks a policy found in the registry as
delivered in the local state with release api-existing and an explanatory
note.  -/
def updateStateForExistingPolicy (state : Ledger) (policyPath : String) (now : Nat) :
    Ledger :=
  setRec state policyPath
    { deliveredAt := now, release := "api-existing"
      note := some "Policy exists in API - marked as delivered" }

/-- The observable result of one HTTP request issued by makeRequest: either
a response with a status code and body, or a transport-level failure
(connection error or the 30 second timeout), whose reject message starts
with Request failed or Request timeout.  -/
inductive HttpResult where
  | ok (statusCode : Nat) (body : String)
  | err (message : String)
deriving DecidableEq, Repr

/-- checkPolicyExistsInApi(name, version): GET the policy; on 200 the
return value JSON.parse(response.body) is built, so an unparseable body
throws right there and the probe fails; 404 means the policy does not
exist; anything else (including transport errors) is thrown as an error.
Which strings JSON.parse accepts is not embedded: the parameter jsonOk is
true exactly on the bodies that parse, and the concrete SyntaxError text of
a failed parse is not modelled (it only feeds a warning log).  -/
def checkPolicyExistsInApi (jsonOk : String → Bool) (response : HttpResult) :
    Except String Bool :=
  match response with
  | .ok c body =>
      if c = 200 then
        if jsonOk body then .ok true
        else .error "Failed to check policy existence: SyntaxError: invalid JSON body"
      else if c = 404 then .ok false
      else
        .error ("Failed to check policy existence: API returned unexpected status "
          ++ toString c ++ ": " ++ body)
  | .err msg => .error ("Failed to check policy existence: " ++ msg)

/-- The outputs set by checkApiExistence (api-available,
policy-exists-in-api, should-skip).  -/
structure ExistenceCheck where
  apiAvailable : Bool
  policyExists : Bool
  shouldSkip : Bool
deriving DecidableEq, Repr

/-- checkApiExistence: probe the registry; when the policy exists, mark it
delivered in the local state (self-healing) and signal skip; when it does
not exist, proceed; when the probe fails in any way (transport error,
unexpected status, or an unparseable 200 body), warn and proceed without
blocking the workflow (fail open).  Returns the state file content and the
outputs.  -/
def checkApiExistence (jsonOk : String → Bool) (state : Ledger) (policyPath : String)
    (response : HttpResult) (now : Nat) : Ledger × ExistenceCheck :=
  match checkPolicyExistsInApi jsonOk response with
  | .ok true =>
      (updateStateForExistingPolicy state policyPath now,
       { apiAvailable := true, policyExists := true, shouldSkip := true })
  | .ok false =>
      (state, { apiAvailable := true, policyExists := false, shouldSkip := false })
  | .error _ =>
      (state, { apiAvailable := false, policyExists := false, shouldSkip := false })

/-- The result object of publishToApi.  The detail field carries the
response body (responseData in the code); the code additionally extracts a
message field from the parsed JSON body when one is present, which is
modelled by the fallback message text.  -/
structure PublishResult where
  success : Bool
  statusCode : Option Nat
  message : String
  detail : Option String
deriving DecidableEq, Repr

/-- publishToApi: POST the payload once; a status in [200, 300) is success,
409 is normalized to success (already published, idempotent no-op), any
other status is a failure carrying the response detail, and a transport
error is a failure carrying the error message.  -/
def publishToApi (response : HttpResult) : PublishResult :=
  match response with
  | .ok c body =>
      if 200 ≤ c ∧ c < 300 then
        { success := true, statusCode := some c
          message := "Policy published successfully", detail := some body }
      else if c = 409 then
        { success := true, statusCode := some c
          message := "Policy already published (idempotent)", detail := some body }
      else
        { success := false, statusCode := some c
          message := "API returned status " ++ toString c, detail := some body }
  | .err msg =>
      { success := false, statusCode := none, message := msg, detail := none }

/-- publishPolicy: prepare the payload, call publishToApi exactly once, and
throw when the result is not a success; there is no retry within the run.  -/
def publishPolicy (response : HttpResult) : Except String PublishResult :=
  let result := publishToApi response
  if result.success then .ok result
  else .error ("Failed to publish policy: " ++ result.message)

/-- Modelled from the spec: the per-artifact terminal states of the
reconciler state machine (section 4.5); the orchestrating workflow
batch-release.yml is not among the sources.  A remote-exists probe result
is a success outcome equivalent to delivered (section 4.3).  -/
inductive Outcome where
  | skipped
  | delivered
  | validationFailed
  | publishFailed
deriving DecidableEq, Repr

/-- An outcome is terminal-successful when it is skipped or delivered.  -/
def Outcome.isSuccess : Outcome → Bool
  | .skipped => true
  | .delivered => true
  | .validationFailed => false
  | .publishFailed => false

/-- Modelled from the spec: the external collaborators of one run, fixed
per artifact path — the registry existence probe, the validator (a pure
predicate returning error messages), the publish endpoint, and the set of
response bodies JSON.parse accepts (the JSON grammar is not embedded).  -/
structure RunEnv where
  probeResponse : String → HttpResult
  validationErrors : String → List String
  publishResponse : String → HttpResult
  jsonOk : String → Bool

/-- Modelled from the spec: one worker pipeline for a pending artifact
(section 4.5 step 2, probe then validate then publish), built from the
embedded operations.  Returns the updated ledger, the outcome, and the
publish calls issued (each pending artifact publishes at most once).  -/
def processPolicy (env : RunEnv) (state : Ledger) (p : Policy) (releaseTag : String)
    (now : Nat) : Ledger × Outcome × List String :=
  let probed := checkApiExistence env.jsonOk state p.path (env.probeResponse p.path) now
  if probed.2.shouldSkip then (probed.1, .delivered, [])
  else if env.validationErrors p.path ≠ [] then (probed.1, .validationFailed, [])
  else
    match publishPolicy (env.publishResponse p.path) with
    | .ok _ => (updatePolicyRecord probed.1 p.path releaseTag now, .delivered, [p.path])
    | .error _ => (probed.1, .publishFailed, [p.path])

/-- Modelled from the spec: fold one pending artifact into the accumulated
ledger, outcome list and publish-call trace.  -/
def runStep (env : RunEnv) (releaseTag : String) (now : Nat)
    (acc : Ledger × List (String × Outcome) × List String) (p : Policy) :
    Ledger × List (String × Outcome) × List String :=
  let r := processPolicy env acc.1 p releaseTag now
  (r.1, acc.2.1 ++ [(p.path, r.2.1)], acc.2.2 ++ r.2.2)

/-- The final persisted ledger, the baseline pointer, the per-artifact
outcomes of the run and the publish calls issued.  -/
structure RunResult where
  ledger : Ledger
  baseline : Nat
  outcomes : List (String × Outcome)
  publishCalls : List String
deriving DecidableEq, Repr

/-- Modelled from the spec: one reconciliation run (section 4.5; the
workflow batch-release.yml is not among the sources).  Detect and filter
(both embedded from the sources), classify changed-but-already-delivered
artifacts as skipped, process each pending artifact, and advance the
baseline to head exactly when no outcome is a validation or publish
failure; a detection failure aborts the run.  -/
def runReconciliation (repo : SourceRepo) (env : RunEnv) (baselineSha headSha : Nat)
    (ledger : Ledger) (releaseTag : String) (now : Nat) : Except String RunResult :=
  match detectChangedPolicies repo baselineSha headSha ledger with
  | .error e => .error e
  | .ok pending =>
      let changed := changedPolicyList (repo.diff baselineSha headSha)
      let skippedOutcomes :=
        (changed.filter (fun p => (lookupRec ledger p.path).isSome)).map
          (fun p => (p.path, Outcome.skipped))
      let done := pending.foldl (runStep env releaseTag now) (ledger, [], [])
      let outcomes := skippedOutcomes ++ done.2.1
      .ok { ledger := done.1
            baseline := if outcomes.all (fun po => po.2.isSuccess) then headSha
              else baselineSha
            outcomes := outcomes
            publishCalls := done.2.2 }

/-- Modelled from the spec: the ledger and baseline actually persisted after
a run; a run that aborts with an error mutates neither (section 4.1).  -/
def runFinalState (repo : SourceRepo) (env : RunEnv) (baselineSha headSha : Nat)
    (ledger : Ledger) (releaseTag : String) (now : Nat) : Ledger × Nat :=
  match runReconciliation repo env baselineSha headSha ledger releaseTag now with
  | .error _ => (ledger, baselineSha)
  | .ok r => (r.ledger, r.baseline)

theorem extractPolicy_of_isEmpty {f : String} (h : f.data.isEmpty = true) :
    extractPolicy f = none := by
  rw [List.isEmpty_iff] at h
  simp [extractPolicy, h, splitOnChar]

theorem mem_changedPolicyList {diffFiles : List String} {p : Policy} :
    p ∈ changedPolicyList diffFiles ↔ ∃ f ∈ diffFiles, extractPolicy f = some p := by
  unfold changedPolicyList
  rw [List.mem_dedup, List.mem_filterMap]
  constructor
  · rintro ⟨f, hf, he⟩
    exact ⟨f, (List.mem_filter.mp hf).1, he⟩
  · rintro ⟨f, hf, he⟩
    refine ⟨f, List.mem_filter.mpr ⟨hf, ?_⟩, he⟩
    cases hemp : f.data.isEmpty
    · simp
    · rw [extractPolicy_of_isEmpty hemp] at he
      cases he

theorem changedPolicyList_canonical {diffFiles : List String} {p : Policy}
    (hp : p ∈ changedPolicyList diffFiles) : CanonicalPolicy p := by
  obtain ⟨f, _, he⟩ := mem_changedPolicyList.mp hp
  exact extractPolicy_canonical he

theorem mem_sortPolicies {l : List Policy} {p : Policy} :
    p ∈ sortPolicies l ↔ p ∈ l :=
  (List.perm_insertionSort PolicyLE l).mem_iff

theorem detect_eq_of_resolvable {repo : SourceRepo} {baselineSha headSha : Nat}
    {ledger : Ledger} (hb : baselineSha ∈ repo.commits) :
    detectChangedPolicies repo baselineSha headSha ledger =
      .ok (sortPolicies ((changedPolicyList (repo.diff baselineSha headSha)).filter
        (fun p => (lookupRec ledger p.path).isNone))) := by
  simp [detectChangedPolicies, hb]

theorem detect_error_of_unresolvable {repo : SourceRepo} {baselineSha headSha : Nat}
    {ledger : Ledger} (hb : baselineSha ∉ repo.commits) :
    detectChangedPolicies repo baselineSha headSha ledger =
      .error "Baseline SHA does not exist in repository" := by
  simp [detectChangedPolicies, hb]

theorem mem_detect {repo : SourceRepo} {baselineSha headSha : Nat} {ledger : Ledger}
    {ps : List Policy} (hdet : detectChangedPolicies repo baselineSha headSha ledger = .ok ps)
    {p : Policy} :
    p ∈ ps ↔
      ((∃ f ∈ repo.diff baselineSha headSha, extractPolicy f = some p) ∧
        lookupRec ledger p.path = none) := by
  by_cases hb : baselineSha ∈ repo.commits
  · rw [detect_eq_of_resolvable hb] at hdet
    injection hdet with h
    subst h
    rw [mem_sortPolicies, List.mem_filter, mem_changedPolicyList]
    simp [Option.isNone_iff_eq_none]
  · rw [detect_error_of_unresolvable hb] at hdet
    cases hdet

theorem detect_nodup {repo : SourceRepo} {baselineSha headSha : Nat} {ledger : Ledger}
    {ps : List Policy} (hdet : detectChangedPolicies repo baselineSha headSha ledger = .ok ps) :
    ps.Nodup := by
  by_cases hb : baselineSha ∈ repo.commits
  · rw [detect_eq_of_resolvable hb] at hdet
    injection hdet with h
    subst h
    exact ((List.perm_insertionSort PolicyLE _).nodup_iff).mpr
      ((List.nodup_dedup _).filter _)
  · rw [detect_error_of_unresolvable hb] at hdet
    cases hdet

theorem detect_sorted {repo : SourceRepo} {baselineSha headSha : Nat} {ledger : Ledger}
    {ps : List Policy} (hdet : detectChangedPolicies repo baselineSha headSha ledger = .ok ps) :
    List.Sorted PolicyLE ps := by
  by_cases hb : baselineSha ∈ repo.commits
  · rw [detect_eq_of_resolvable hb] at hdet
    injection hdet with h
    subst h
    exact List.sorted_insertionSort PolicyLE _
  · rw [detect_error_of_unresolvable hb] at hdet
    cases hdet

theorem checkApiExistence_fst_lookup_other (jsonOk : String → Bool) (state : Ledger)
    (policyPath : String) (response : HttpResult) (now : Nat) (q : String)
    (hq : q ≠ policyPath) :
    lookupRec (checkApiExistence jsonOk state policyPath response now).1 q =
      lookupRec state q := by
  unfold checkApiExistence
  cases checkPolicyExistsInApi jsonOk response with
  | ok b =>
      cases b
      · rfl
      · exact lookupRec_setRec_ne state policyPath q _ (Ne.symm hq)
  | error e => rfl

theorem processPolicy_fst_lookup_other (env : RunEnv) (state : Ledger) (p : Policy)
    (releaseTag : String) (now : Nat) (q : String) (hq : q ≠ p.path) :
    lookupRec (processPolicy env state p releaseTag now).1 q = lookupRec state q := by
  have hc := checkApiExistence_fst_lookup_other env.jsonOk state p.path
    (env.probeResponse p.path) now q hq
  unfold processPolicy
  by_cases hskip :
      (checkApiExistence env.jsonOk state p.path
        (env.probeResponse p.path) now).2.shouldSkip = true
  · simp [hskip, hc]
  · by_cases hval : env.validationErrors p.path = []
    · cases hpub : publishPolicy (env.publishResponse p.path) with
      | ok r =>
          simp [hskip, hval, hpub, updatePolicyRecord,
            lookupRec_setRec_ne _ _ _ _ (Ne.symm hq), hc]
      | error e => simp [hskip, hval, hpub, hc]
    · simp [hskip, hval, hc]

theorem processPolicy_calls (env : RunEnv) (state : Ledger) (p : Policy)
    (releaseTag : String) (now : Nat) :
    (processPolicy env state p releaseTag now).2.2 = [] ∨
      (processPolicy env state p releaseTag now).2.2 = [p.path] := by
  unfold processPolicy
  by_cases hskip :
      (checkApiExistence env.jsonOk state p.path
        (env.probeResponse p.path) now).2.shouldSkip = true
  · left; simp [hskip]
  · by_cases hval : env.validationErrors p.path = []
    · cases hpub : publishPolicy (env.publishResponse p.path) with
      | ok r => right; simp [hskip, hval, hpub]
      | error e => right; simp [hskip, hval, hpub]
    · left; simp [hskip, hval]

theorem foldl_runStep_lookup_preserved (env : RunEnv) (releaseTag : String) (now : Nat) :
    ∀ (pending : List Policy) (acc : Ledger × List (String × Outcome) × List String)
      (q : String), (∀ p ∈ pending, q ≠ p.path) →
      lookupRec (pending.foldl (runStep env releaseTag now) acc).1 q = lookupRec acc.1 q := by
  intro pending
  induction pending with
  | nil => intro acc q _; rfl
  | cons p ps ih =>
      intro acc q hq
      rw [List.foldl_cons, ih _ q (fun r hr => hq r (List.mem_cons_of_mem p hr))]
      exact processPolicy_fst_lookup_other env acc.1 p releaseTag now q
        (hq p (List.mem_cons_self p ps))

theorem foldl_runStep_calls (env : RunEnv) (releaseTag : String) (now : Nat) :
    ∀ (pending : List Policy) (acc : Ledger × List (String × Outcome) × List String)
      (x : String), x ∈ (pending.foldl (runStep env releaseTag now) acc).2.2 →
      x ∈ acc.2.2 ∨ ∃ p ∈ pending, x = p.path := by
  intro pending
  induction pending with
  | nil => intro acc x hx; exact Or.inl hx
  | cons p ps ih =>
      intro acc x hx
      rw [List.foldl_cons] at hx
      rcases ih _ x hx with h | ⟨r, hr, hxr⟩
      · unfold runStep at h
        rcases List.mem_append.mp h with h | h
        · exact Or.inl h
        · rcases processPolicy_calls env acc.1 p releaseTag now with hc | hc <;> rw [hc] at h
          · cases h
          · rcases List.mem_singleton.mp h with rfl
            exact Or.inr ⟨p, List.mem_cons_self p ps, rfl⟩
      · exact Or.inr ⟨r, List.mem_cons_of_mem p hr, hxr⟩

theorem runReconciliation_baseline {repo : SourceRepo} {env : RunEnv}
    {baselineSha headSha : Nat} {ledger : Ledger} {releaseTag : String} {now : Nat}
    {r : RunResult}
    (h : runReconciliation repo env baselineSha headSha ledger releaseTag now = .ok r) :
    r.baseline =
      if r.outcomes.all (fun po => po.2.isSuccess) then headSha else baselineSha := by
  unfold runReconciliation at h
  cases hdet : detectChangedPolicies repo baselineSha headSha ledger with
  | error e => rw [hdet] at h; cases h
  | ok pending =>
      rw [hdet] at h
      simp only at h
      injection h with h
      subst h
      rfl

theorem runReconciliation_ledger_outcomes_calls {repo : SourceRepo} {env : RunEnv}
    {baselineSha headSha : Nat} {ledger : Ledger} {releaseTag : String} {now : Nat}
    {r : RunResult}
    (h : runReconciliation repo env baselineSha headSha ledger releaseTag now = .ok r) :
    ∃ pending, detectChangedPolicies repo baselineSha headSha ledger = .ok pending ∧
      r.ledger = (pending.foldl (runStep env releaseTag now) (ledger, [], [])).1 ∧
      r.publishCalls = (pending.foldl (runStep env releaseTag now) (ledger, [], [])).2.2 := by
  unfold runReconciliation at h
  cases hdet : detectChangedPolicies repo baselineSha headSha ledger with
  | error e => rw [hdet] at h; cases h
  | ok pending =>
      rw [hdet] at h
      simp only at h
      injection h with h
      subst h
      exact ⟨pending, rfl, rfl, rfl⟩

/-- A two-commit history in which commit 1 changes one file of the policy
folder policies/a/v1.0.0.  -/
def cRepo : SourceRepo where
  commits := [0, 1]
  diff := fun b h => if b = 0 ∧ h = 1 then ["policies/a/v1.0.0/src/main.go"] else []

/-- A two-commit history whose diff lists artifact b/v2.0.0 before
a/v1.0.0.  -/
def cRepoBA : SourceRepo where
  commits := [0, 1]
  diff := fun b h =>
    if b = 0 ∧ h = 1 then
      ["policies/b/v2.0.0/src/main.go", "policies/a/v1.0.0/src/main.go"]
    else []

/-- Collaborators for a fully successful run: the registry does not hold the
artifacts, validation passes, publishing returns 201.  -/
def cEnvOk : RunEnv where
  probeResponse := fun _ => .ok 404 ""
  validationErrors := fun _ => []
  publishResponse := fun _ => .ok 201 "created"
  jsonOk := fun _ => true

/-- Collaborators for a run whose publish calls time out.  -/
def cEnvFail : RunEnv where
  probeResponse := fun _ => .ok 404 ""
  validationErrors := fun _ => []
  publishResponse := fun _ => .err "Request timeout after 30000ms"
  jsonOk := fun _ => true

/-- The artifact a/v1.0.0.  -/
def cPolicyA : Policy where
  path := "policies/a/v1.0.0"
  name := "a"
  version := "v1.0.0"

/-- The artifact b/v2.0.0.  -/
def cPolicyB : Policy where
  path := "policies/b/v2.0.0"
  name := "b"
  version := "v2.0.0"

/-- A delivery record written at time 5 by release v1.0.  -/
def cRecA : DeliveryRecord where
  deliveredAt := 5
  release := "v1.0"
  note := none

/-- A ledger in which a/v1.0.0 is already delivered.  -/
def cLedgerA : Ledger := [("policies/a/v1.0.0", cRecA)]

/-- The result of running cRepo with cEnvOk from baseline 0 on the empty
ledger at time 10 for release v1.  -/
def cRunOk : RunResult where
  ledger := [("policies/a/v1.0.0", { deliveredAt := 10, release := "v1", note := none })]
  baseline := 1
  outcomes := [("policies/a/v1.0.0", Outcome.delivered)]
  publishCalls := ["policies/a/v1.0.0"]

/-- The result of running cRepo with cEnvOk from baseline 0 on cLedgerA:
the already-delivered artifact is skipped, nothing is published.  -/
def cRunSkip : RunResult where
  ledger := cLedgerA
  baseline := 1
  outcomes := [("policies/a/v1.0.0", Outcome.skipped)]
  publishCalls := []

/-- Claim C1: an artifact that already has a DeliveryRecord is classified as
skipped by the eligibility check (shouldDeliver false, reason
version-immutable), is excluded from the detection result, and no publish
call is ever issued for it during a run, regardless of any further content
changes under its path (the diff is arbitrary here).  -/
theorem immutable_artifact_never_republished
    (policyPath : String) (ledger : Ledger) (record : DeliveryRecord)
    (hrec : lookupRec ledger policyPath = some record)
    (repo : SourceRepo) (env : RunEnv) (baselineSha headSha : Nat)
    (releaseTag : String) (now : Nat) :
    (shouldDeliver policyPath ledger).shouldDeliver = false ∧
    (shouldDeliver policyPath ledger).reason = "version-immutable" ∧
    (∀ ps, detectChangedPolicies repo baselineSha headSha ledger = .ok ps →
      ∀ p ∈ ps, p.path ≠ policyPath) ∧
    (∀ r, runReconciliation repo env baselineSha headSha ledger releaseTag now = .ok r →
      policyPath ∉ r.publishCalls) := by
  refine ⟨by simp [shouldDeliver, hrec], by simp [shouldDeliver, hrec], ?_, ?_⟩
  · intro ps hdet p hp hpe
    have hnone := ((mem_detect hdet).mp hp).2
    rw [hpe, hrec] at hnone
    cases hnone
  · intro r hr hmem
    obtain ⟨pending, hdet, _, hcalls⟩ := runReconciliation_ledger_outcomes_calls hr
    rw [hcalls] at hmem
    rcases foldl_runStep_calls env releaseTag now pending (ledger, [], []) policyPath hmem
      with h | ⟨p, hp, hxp⟩
    · cases h
    · have hnone := ((mem_detect hdet).mp hp).2
      rw [← hxp, hrec] at hnone
      cases hnone

/-- Witness for claim C1 at a concrete already-delivered artifact.  -/
theorem immutable_artifact_never_republished_witness :
    lookupRec cLedgerA "policies/a/v1.0.0" = some cRecA ∧
    (shouldDeliver "policies/a/v1.0.0" cLedgerA).shouldDeliver = false ∧
    "policies/a/v1.0.0" ∉ cRunSkip.publishCalls := by
  have h := immutable_artifact_never_republished "policies/a/v1.0.0" cLedgerA cRecA
    (by decide) cRepo cEnvOk 0 1 "v1" 10
  exact ⟨by decide, h.1, h.2.2.2 cRunSkip (by decide)⟩

/-- Claim C2: the baseline advances to head exactly when no outcome of the
run is a ValidationFailed or PublishFailed (all are Skipped or Delivered);
on any per-artifact failure it is left unchanged, on a hard failure the
persisted state is untouched, and the baseline never moves backward.  -/
theorem baseline_advances_iff_no_failure
    (repo : SourceRepo) (env : RunEnv) (baselineSha headSha : Nat) (ledger : Ledger)
    (releaseTag : String) (now : Nat) (hbh : baselineSha ≤ headSha) :
    (∀ r, runReconciliation repo env baselineSha headSha ledger releaseTag now = .ok r →
      ((∀ po ∈ r.outcomes, po.2 = Outcome.skipped ∨ po.2 = Outcome.delivered) →
        r.baseline = headSha) ∧
      ((∃ po ∈ r.outcomes, po.2 = Outcome.validationFailed ∨ po.2 = Outcome.publishFailed) →
        r.baseline = baselineSha) ∧
      baselineSha ≤ r.baseline) ∧
    (∀ e, runReconciliation repo env baselineSha headSha ledger releaseTag now = .error e →
      runFinalState repo env baselineSha headSha ledger releaseTag now =
        (ledger, baselineSha)) := by
  constructor
  · intro r hr
    have hb := runReconciliation_baseline hr
    refine ⟨?_, ?_, ?_⟩
    · intro hall
      rw [hb, if_pos]
      rw [List.all_eq_true]
      intro po hpo
      rcases hall po hpo with h | h <;> rw [h] <;> rfl
    · rintro ⟨po, hpo, hfail⟩
      rw [hb, if_neg]
      intro hcontra
      rw [List.all_eq_true] at hcontra
      have hsucc := hcontra po hpo
      rcases hfail with h | h <;> rw [h] at hsucc <;> cases hsucc
    · rw [hb]
      split
      · exact hbh
      · exact le_refl _
  · intro e he
    unfold runFinalState
    rw [he]

/-- Witness for claim C2: in a fully successful run from baseline 0 to
head 1 the baseline advances to 1.  -/
theorem baseline_advances_iff_no_failure_witness :
    (0 : Nat) ≤ 1 ∧ cRunOk.baseline = 1 :=
  ⟨by decide,
    ((baseline_advances_iff_no_failure cRepo cEnvOk 0 1 [] "v1" 10 (by decide)).1
      cRunOk (by decide)).1 (by decide)⟩

/-- Claim C3: publishing succeeds exactly for status codes in [200, 300) and
for 409 (conflict normalized to success); any other status yields a failure
carrying the response detail; a transport error yields a failure carrying
its message; and one worker pipeline issues at most one publish call for an
artifact, so a failed call is not retried within the run.  -/
theorem publish_status_interpretation
    (c : Nat) (body msg : String) (env : RunEnv) (state : Ledger) (p : Policy)
    (releaseTag : String) (now : Nat) :
    ((publishToApi (.ok c body)).success = true ↔ (200 ≤ c ∧ c < 300) ∨ c = 409) ∧
    (¬((200 ≤ c ∧ c < 300) ∨ c = 409) →
      (publishToApi (.ok c body)).success = false ∧
      (publishToApi (.ok c body)).detail = some body ∧
      (publishToApi (.ok c body)).statusCode = some c) ∧
    ((publishToApi (.err msg)).success = false ∧ (publishToApi (.err msg)).message = msg) ∧
    ((processPolicy env state p releaseTag now).2.2 = [] ∨
      (processPolicy env state p releaseTag now).2.2 = [p.path]) := by
  refine ⟨?_, ?_, ⟨rfl, rfl⟩, processPolicy_calls env state p releaseTag now⟩
  · by_cases h1 : 200 ≤ c ∧ c < 300
    · simp [publishToApi, h1]
    · by_cases h2 : c = 409
      · simp [publishToApi, h1, h2]
      · simp [publishToApi, h1, h2]
  · intro hfail
    rw [not_or] at hfail
    simp [publishToApi, hfail.1, hfail.2]

/-- Witness for claim C3 at status 500: not a success, detail carried.  -/
theorem publish_status_interpretation_witness :
    ¬(((200 : Nat) ≤ 500 ∧ (500 : Nat) < 300) ∨ (500 : Nat) = 409) ∧
    (publishToApi (.ok 500 "boom")).success = false ∧
    (publishToApi (.ok 500 "boom")).detail = some "boom" := by
  have h := publish_status_interpretation 500 "boom" "m" cEnvOk [] cPolicyA "v1" 10
  exact ⟨by decide, (h.2.1 (by decide)).1, (h.2.1 (by decide)).2.1⟩

/-- Claim C4: updateDeliveryState persists the fresh DeliveryRecord to the
state file and then fails (the return expression references the undefined
variable previousSha), so the state is changed although the operation
reports failure.  -/
theorem updateDeliveryState_writes_then_fails
    (state : Ledger) (policyPath releaseTag : String) (now : Nat) :
    lookupRec (updateDeliveryState state policyPath releaseTag now).1 policyPath =
      some { deliveredAt := now, release := releaseTag, note := none } ∧
    (updateDeliveryState state policyPath releaseTag now).2 =
      .error "ReferenceError: previousSha is not defined" :=
  ⟨lookupRec_setRec_self state policyPath _, rfl⟩

/-- Counterexample to claim C5 as stated: applying the state-updating
operations directly to an id that already has a record replaces its fields
(fresh deliveredAt, new release, new note), so the record is not left
unchanged.  -/
theorem update_operations_overwrite_existing_record :
    lookupRec cLedgerA "policies/a/v1.0.0" = some cRecA ∧
    lookupRec (updatePolicyRecord cLedgerA "policies/a/v1.0.0" "v2.0" 9)
        "policies/a/v1.0.0" =
      some { deliveredAt := 9, release := "v2.0", note := none } ∧
    ({ deliveredAt := 9, release := "v2.0", note := none } : DeliveryRecord) ≠ cRecA ∧
    lookupRec (updateStateForExistingPolicy cLedgerA "policies/a/v1.0.0" 9)
        "policies/a/v1.0.0" =
      some { deliveredAt := 9, release := "api-existing"
             note := some "Policy exists in API - marked as delivered" } := by
  decide

/-- Claim C5 amended: the state-updating operations themselves overwrite an
existing record unconditionally; immutability is enforced upstream, because
a reconciliation run only applies them to artifacts without a record, so
every record present at the start of a run is unchanged at its end.  -/
theorem run_preserves_existing_records
    (repo : SourceRepo) (env : RunEnv) (baselineSha headSha : Nat) (ledger : Ledger)
    (releaseTag : String) (now : Nat) (q : String) (record : DeliveryRecord)
    (hq : lookupRec ledger q = some record) :
    ∀ r, runReconciliation repo env baselineSha headSha ledger releaseTag now = .ok r →
      lookupRec r.ledger q = some record := by
  intro r hr
  obtain ⟨pending, hdet, hledger, _⟩ := runReconciliation_ledger_outcomes_calls hr
  rw [hledger]
  rw [foldl_runStep_lookup_preserved env releaseTag now pending (ledger, [], []) q ?_]
  · exact hq
  · intro p hp hqp
    have hnone := ((mem_detect hdet).mp hp).2
    rw [← hqp, hq] at hnone
    cases hnone

/-- Witness for the amended claim C5: the pre-existing record of a/v1.0.0
survives a full run over a diff touching its folder.  -/
theorem run_preserves_existing_records_witness :
    lookupRec cLedgerA "policies/a/v1.0.0" = some cRecA ∧
    lookupRec cRunSkip.ledger "policies/a/v1.0.0" = some cRecA :=
  ⟨by decide,
    run_preserves_existing_records cRepo cEnvOk 0 1 cLedgerA "v1" 10
      "policies/a/v1.0.0" cRecA (by decide) cRunSkip (by decide)⟩

/-- Claim C6: a 200 probe response whose body parses writes a
DeliveryRecord to the local ledger and signals skip, and the worker
pipeline then issues no publish call; a 404 response proceeds with the
state unchanged; any other failure of the probe — a 200 body JSON.parse
rejects, an unexpected status, or a transport error — fails open (proceed,
state unchanged), so a pipeline whose validation passes still issues its
publish call.  -/
theorem probe_existence_check
    (jsonOk : String → Bool) (state : Ledger) (policyPath body msg : String)
    (c now : Nat) (env : RunEnv) (p : Policy) (releaseTag : String) :
    (jsonOk body = true →
      lookupRec (checkApiExistence jsonOk state policyPath (.ok 200 body) now).1
          policyPath =
        some { deliveredAt := now, release := "api-existing"
               note := some "Policy exists in API - marked as delivered" } ∧
      (checkApiExistence jsonOk state policyPath (.ok 200 body) now).2.shouldSkip = true) ∧
    (jsonOk body = false →
      checkApiExistence jsonOk state policyPath (.ok 200 body) now =
        (state, { apiAvailable := false, policyExists := false, shouldSkip := false })) ∧
    (checkApiExistence jsonOk state policyPath (.ok 404 body) now =
      (state, { apiAvailable := true, policyExists := false, shouldSkip := false })) ∧
    (c ≠ 200 → c ≠ 404 →
      checkApiExistence jsonOk state policyPath (.ok c body) now =
        (state, { apiAvailable := false, policyExists := false, shouldSkip := false })) ∧
    (checkApiExistence jsonOk state policyPath (.err msg) now =
      (state, { apiAvailable := false, policyExists := false, shouldSkip := false })) ∧
    (env.probeResponse p.path = .ok 200 body → env.jsonOk body = true →
      (processPolicy env state p releaseTag now).2.2 = [] ∧
      (processPolicy env state p releaseTag now).2.1 = Outcome.delivered ∧
      lookupRec (processPolicy env state p releaseTag now).1 p.path =
        some { deliveredAt := now, release := "api-existing"
               note := some "Policy exists in API - marked as delivered" }) ∧
    (env.probeResponse p.path = .err msg → env.validationErrors p.path = [] →
      (processPolicy env state p releaseTag now).2.2 = [p.path]) := by
  refine ⟨?_, ?_, ?_, ?_, ?_, ?_, ?_⟩
  · intro hjson
    constructor
    · simp [checkApiExistence, checkPolicyExistsInApi, hjson,
        updateStateForExistingPolicy, lookupRec_setRec_self]
    · simp [checkApiExistence, checkPolicyExistsInApi, hjson]
  · intro hjson
    simp [checkApiExistence, checkPolicyExistsInApi, hjson]
  · simp [checkApiExistence, checkPolicyExistsInApi]
  · intro h200 h404
    simp [checkApiExistence, checkPolicyExistsInApi, h200, h404]
  · simp [checkApiExistence, checkPolicyExistsInApi]
  · intro hprobe hjson
    have hcheck : checkApiExistence env.jsonOk state p.path (env.probeResponse p.path) now =
        (updateStateForExistingPolicy state p.path now,
         { apiAvailable := true, policyExists := true, shouldSkip := true }) := by
      rw [hprobe]
      simp [checkApiExistence, checkPolicyExistsInApi, hjson]
    refine ⟨?_, ?_, ?_⟩ <;>
      simp [processPolicy, hcheck, updateStateForExistingPolicy, lookupRec_setRec_self]
  · intro hprobe hval
    have hcheck : checkApiExistence env.jsonOk state p.path (env.probeResponse p.path) now =
        (state, { apiAvailable := false, policyExists := false, shouldSkip := false }) := by
      rw [hprobe]
      simp [checkApiExistence, checkPolicyExistsInApi]
    cases hpub : publishPolicy (env.publishResponse p.path) with
    | ok r => simp [processPolicy, hcheck, hval, hpub]
    | error e => simp [processPolicy, hcheck, hval, hpub]

/-- Witness for claim C6 at an unexpected probe status 503 and at a 200
probe whose body does not parse; both fail open without touching the
state.  -/
theorem probe_existence_check_witness :
    (503 : Nat) ≠ 200 ∧ (503 : Nat) ≠ 404 ∧
    checkApiExistence (fun _ => true) cLedgerA "policies/a/v1.0.0" (.ok 503 "oops") 9 =
      (cLedgerA, { apiAvailable := false, policyExists := false, shouldSkip := false }) ∧
    (fun _ => false : String → Bool) "garbage" = false ∧
    checkApiExistence (fun _ => false) cLedgerA "policies/a/v1.0.0" (.ok 200 "garbage") 9 =
      (cLedgerA, { apiAvailable := false, policyExists := false, shouldSkip := false }) := by
  have h1 := probe_existence_check (fun _ => true) cLedgerA "policies/a/v1.0.0" "oops" "m"
    503 9 cEnvOk cPolicyA "v1"
  have h2 := probe_existence_check (fun _ => false) cLedgerA "policies/a/v1.0.0" "garbage"
    "m" 503 9 cEnvOk cPolicyA "v1"
  exact ⟨by decide, by decide, h1.2.2.2.1 (by decide) (by decide), rfl, h2.2.1 rfl⟩

/-- Claim C7: an unresolvable baseline makes detection fail with the
baseline error, the whole run aborts with that error, and neither the
delivery records nor the baseline pointer are mutated.  -/
theorem invalid_baseline_aborts
    (repo : SourceRepo) (env : RunEnv) (baselineSha headSha : Nat) (ledger : Ledger)
    (releaseTag : String) (now : Nat) (hb : baselineSha ∉ repo.commits) :
    detectChangedPolicies repo baselineSha headSha ledger =
      .error "Baseline SHA does not exist in repository" ∧
    runReconciliation repo env baselineSha headSha ledger releaseTag now =
      .error "Baseline SHA does not exist in repository" ∧
    runFinalState repo env baselineSha headSha ledger releaseTag now =
      (ledger, baselineSha) := by
  have hdet := @detect_error_of_unresolvable repo baselineSha headSha ledger hb
  have hrun : runReconciliation repo env baselineSha headSha ledger releaseTag now =
      .error "Baseline SHA does not exist in repository" := by
    unfold runReconciliation
    rw [hdet]
  refine ⟨hdet, hrun, ?_⟩
  unfold runFinalState
  rw [hrun]

/-- Witness for claim C7 at the unknown commit 2.  -/
theorem invalid_baseline_aborts_witness :
    (2 : Nat) ∉ cRepo.commits ∧
    runFinalState cRepo cEnvOk 2 1 cLedgerA "v1" 10 = (cLedgerA, 2) :=
  ⟨by decide,
    (invalid_baseline_aborts cRepo cEnvOk 2 1 cLedgerA "v1" 10 (by decide)).2.2⟩

/-- Counterexample to claim C8 as stated: when the only changed artifact's
publish call times out, the first run leaves ledger and baseline unchanged,
and a second run with no intervening source changes again detects that
artifact as pending — one pending artifact, not zero.  -/
theorem second_run_redetects_failed_artifact :
    runFinalState cRepo cEnvFail 0 1 [] "v1" 10 = ([], 0) ∧
    detectChangedPolicies cRepo 0 1 [] = .ok [cPolicyA] ∧
    [cPolicyA] ≠ ([] : List Policy) := by
  decide

/-- Claim C8 amended: when every outcome of a run is a success (Skipped or
Delivered), a second run with no intervening source changes is a no-op: it
detects zero pending artifacts, produces no outcomes, issues no publish
calls, and returns the identical ledger and baseline.  -/
theorem rerun_after_success_is_noop
    (repo : SourceRepo) (env : RunEnv) (baselineSha headSha : Nat) (ledger : Ledger)
    (tag1 : String) (now1 : Nat) (tag2 : String) (now2 : Nat)
    (hh : headSha ∈ repo.commits) (hrefl : repo.diff headSha headSha = [])
    (r1 : RunResult)
    (hr1 : runReconciliation repo env baselineSha headSha ledger tag1 now1 = .ok r1)
    (hsucc : r1.outcomes.all (fun po => po.2.isSuccess) = true) :
    detectChangedPolicies repo r1.baseline headSha r1.ledger = .ok [] ∧
    runReconciliation repo env r1.baseline headSha r1.ledger tag2 now2 =
      .ok { ledger := r1.ledger, baseline := r1.baseline
            outcomes := [], publishCalls := [] } := by
  have hbase : r1.baseline = headSha := by
    rw [runReconciliation_baseline hr1, if_pos hsucc]
  have hdet : detectChangedPolicies repo r1.baseline headSha r1.ledger = .ok [] := by
    rw [hbase, detect_eq_of_resolvable hh, hrefl]
    rfl
  refine ⟨hdet, ?_⟩
  unfold runReconciliation
  rw [hdet, hbase, hrefl]
  rfl

/-- Witness for the amended claim C8: rerunning after the fully successful
concrete run detects nothing and changes nothing.  -/
theorem rerun_after_success_is_noop_witness :
    (1 ∈ cRepo.commits) ∧ cRepo.diff 1 1 = [] ∧
    cRunOk.outcomes.all (fun po => po.2.isSuccess) = true ∧
    detectChangedPolicies cRepo cRunOk.baseline 1 cRunOk.ledger = .ok [] :=
  ⟨by decide, by decide, by decide,
    (rerun_after_success_is_noop cRepo cEnvOk 0 1 [] "v1" 10 "v2" 20
      (by decide) (by decide) cRunOk (by decide) (by decide)).1⟩

/-- Counterexample to claim C9 as stated: the changed path matches the
artifact pattern — its unique ArtifactId is a/v1.0.0 — yet detection
returns the empty list, because the ledger already holds a DeliveryRecord
for that artifact; so the result is not exactly the set of unique matching
ArtifactIds.  -/
theorem detect_not_exactly_matching_set :
    isValidPolicyPath "policies/a/v1.0.0/src/main.go" = true ∧
    extractPolicy "policies/a/v1.0.0/src/main.go" = some cPolicyA ∧
    detectChangedPolicies cRepo 0 1 cLedgerA = .ok [] ∧
    ([] : List Policy) ≠ [cPolicyA] := by
  decide

/-- Claim C9 amended: for a resolvable baseline, detection returns exactly
the unique ArtifactIds of the changed paths matching the pattern (first
segment the collection root, third segment a semantic version) that do not
already have a DeliveryRecord; non-matching paths are silently discarded,
multiple files under one artifact folder collapse to one entry, and an
empty diff yields the empty list, not an error.  -/
theorem detect_returns_matching_undelivered
    (repo : SourceRepo) (baselineSha headSha : Nat) (ledger : Ledger)
    (hb : baselineSha ∈ repo.commits) :
    ∀ ps, detectChangedPolicies repo baselineSha headSha ledger = .ok ps →
      (∀ p, p ∈ ps ↔
        ((∃ f ∈ repo.diff baselineSha headSha, extractPolicy f = some p) ∧
          lookupRec ledger p.path = none)) ∧
      ps.Nodup ∧
      (∀ f : String, (extractPolicy f).isSome = isValidPolicyPath f) ∧
      (repo.diff baselineSha headSha = [] → ps = []) := by
  intro ps hdet
  refine ⟨fun p => mem_detect hdet, detect_nodup hdet, extractPolicy_isSome_iff, ?_⟩
  intro hdiff
  rw [detect_eq_of_resolvable hb, hdiff] at hdet
  injection hdet with h
  exact h.symm

/-- Witness for the amended claim C9 on the concrete repository.  -/
theorem detect_returns_matching_undelivered_witness :
    (0 ∈ cRepo.commits) ∧ List.Nodup [cPolicyA] ∧
    (extractPolicy "not-a-policy.md").isSome = isValidPolicyPath "not-a-policy.md" := by
  have h := detect_returns_matching_undelivered cRepo 0 1 [] (by decide)
    [cPolicyA] (by decide)
  exact ⟨by decide, h.2.1, h.2.2.1 "not-a-policy.md"⟩

/-- Claim C10: detection output is sorted by artifact name and then by
version; it is identical for any two histories whose diffs are
permutations of each other (order independence); and on the concrete diff
listing b/v2.0.0 before a/v1.0.0 it returns a/v1.0.0 first.  -/
theorem detect_output_sorted_and_order_independent
    (repo₁ repo₂ : SourceRepo) (baselineSha headSha : Nat) (ledger : Ledger)
    (hb₁ : baselineSha ∈ repo₁.commits) (hb₂ : baselineSha ∈ repo₂.commits)
    (hperm : (repo₁.diff baselineSha headSha).Perm (repo₂.diff baselineSha headSha)) :
    (∀ ps, detectChangedPolicies repo₁ baselineSha headSha ledger = .ok ps →
      List.Sorted PolicyLE ps) ∧
    detectChangedPolicies repo₁ baselineSha headSha ledger =
      detectChangedPolicies repo₂ baselineSha headSha ledger ∧
    detectChangedPolicies cRepoBA 0 1 [] = .ok [cPolicyA, cPolicyB] := by
  refine ⟨fun ps hdet => detect_sorted hdet, ?_, by decide⟩
  rw [detect_eq_of_resolvable hb₁, detect_eq_of_resolvable hb₂]
  have hpermL :
      ((changedPolicyList (repo₁.diff baselineSha headSha)).filter
        (fun p => (lookupRec ledger p.path).isNone)).Perm
      ((changedPolicyList (repo₂.diff baselineSha headSha)).filter
        (fun p => (lookupRec ledger p.path).isNone)) :=
    (((hperm.filter _).filterMap _).dedup).filter _
  have hcan : ∀ p ∈ sortPolicies ((changedPolicyList (repo₁.diff baselineSha headSha)).filter
      (fun p => (lookupRec ledger p.path).isNone)), CanonicalPolicy p := by
    intro p hp
    exact changedPolicyList_canonical (List.mem_of_mem_filter (mem_sortPolicies.mp hp))
  have hperm' :
      (sortPolicies ((changedPolicyList (repo₁.diff baselineSha headSha)).filter
        (fun p => (lookupRec ledger p.path).isNone))).Perm
      (sortPolicies ((changedPolicyList (repo₂.diff baselineSha headSha)).filter
        (fun p => (lookupRec ledger p.path).isNone))) :=
    ((List.perm_insertionSort PolicyLE _).trans hpermL).trans
      (List.perm_insertionSort PolicyLE _).symm
  exact congrArg Except.ok
    (sorted_perm_eq_of_canonical _ _ hcan hperm'
      (List.sorted_insertionSort PolicyLE _) (List.sorted_insertionSort PolicyLE _))

/-- Witness for claim C10 on the concrete b-before-a repository.  -/
theorem detect_output_sorted_and_order_independent_witness :
    (0 ∈ cRepoBA.commits) ∧ List.Sorted PolicyLE [cPolicyA, cPolicyB] := by
  have h := detect_output_sorted_and_order_independent cRepoBA cRepoBA 0 1 []
    (by decide) (by decide) (List.Perm.refl _)
  exact ⟨by decide, h.1 [cPolicyA, cPolicyB] (by decide)⟩

end PolicyHub
